import Mathlib

/-!
# Verification of the igdb-wrapper client library

Shallow embedding of the core of the `igdb-wrapper` TypeScript library:
the fluent query builder (`src/@types/query-builder.ts`), the request
building layer of the route base class (`routes/base.ts`), the credential
check (`utils`), and the OAuth token manager (`src/token-manager.ts`)
together with a small-step model of its single-threaded cooperative
concurrency.

JavaScript conventions used throughout the embedding:
* `number` becomes `Int` (all values involved are integers here);
* nullable / optional values become `Option`;
* string truthiness (`if (s)`) is `s != ""` on a present string;
* a thrown error becomes the `Except.error` branch carrying the message.
-/

namespace IGDB

/-- JavaScript truthiness of a possibly-absent string
(`undefined`/`null`/`""` are falsy). -/
def truthyS : Option String → Bool
  | none => false
  | some s => s != ""

/-! ## Query builder (`IGDBQueryBuilder`, src/@types/query-builder.ts)

The builder's private state, with the same fields and initial values as the
TypeScript class. -/

structure IGDBQueryBuilder where
  fields : List String := []
  whereConditions : List String := []
  sortFields : List String := []
  limitValue : Option Int := none
  offsetValue : Option Int := none
  searchValue : Option String := none
  includeDefaultFields : Bool := true
deriving Repr, DecidableEq

namespace IGDBQueryBuilder

/-- `select(...fields)`: pushes the given fields (no de-duplication). -/
def select (b : IGDBQueryBuilder) (fs : List String) : IGDBQueryBuilder :=
  { b with fields := b.fields ++ fs }

/-- `where(condition)`: pushes one condition.  (`where` is a Lean keyword,
hence the name `whereCond`.) -/
def whereCond (b : IGDBQueryBuilder) (condition : String) : IGDBQueryBuilder :=
  { b with whereConditions := b.whereConditions ++ [condition] }

/-- `whereOr(...conditions)`: if non-empty, pushes the alternatives joined
by `" | "`, wrapped in parentheses, as one condition. -/
def whereOr (b : IGDBQueryBuilder) (conditions : List String) : IGDBQueryBuilder :=
  if conditions.length > 0 then
    { b with whereConditions :=
        b.whereConditions ++ ["(" ++ String.intercalate " | " conditions ++ ")"] }
  else b

/-- `sortBy(field, direction)`: pushes `"field direction"`. -/
def sortBy (b : IGDBQueryBuilder) (field direction : String) : IGDBQueryBuilder :=
  { b with sortFields := b.sortFields ++ [field ++ " " ++ direction] }

/-- `limit(value)`: stores `Math.max(1, Math.min(value, 500))`. -/
def limit (b : IGDBQueryBuilder) (value : Int) : IGDBQueryBuilder :=
  { b with limitValue := some (max 1 (min value 500)) }

/-- `offset(value)`: stores `Math.max(0, Math.min(value, 10000))`. -/
def offset (b : IGDBQueryBuilder) (value : Int) : IGDBQueryBuilder :=
  { b with offsetValue := some (max 0 (min value 10000)) }

/-- `search(term)`: stores the term. -/
def search (b : IGDBQueryBuilder) (term : String) : IGDBQueryBuilder :=
  { b with searchValue := some term }

/-- `build()`: renders the accumulated state into the IGDB query string,
mirroring the sequence of `parts.push` statements of the source
(`if (cond) parts.push(x)` becomes `if cond then parts ++ [x] else parts`);
note the source guards the search clause with string truthiness
(`if (this.searchValue)`), so a stored empty term is not emitted. -/
def build (b : IGDBQueryBuilder) : String :=
  let parts : List String := []
  let parts := if b.fields.length > 0 then
    parts ++ ["fields " ++ String.intercalate "," b.fields] else parts
  let parts := if b.sortFields.length > 0 then
    parts ++ ["sort " ++ String.intercalate "," b.sortFields] else parts
  let parts := match b.limitValue with
    | some v => parts ++ ["limit " ++ toString v]
    | none => parts
  let parts := match b.offsetValue with
    | some v => parts ++ ["offset " ++ toString v]
    | none => parts
  let parts := match b.searchValue with
    | some t => if t != "" then parts ++ ["search \"" ++ t ++ "\""] else parts
    | none => parts
  let parts := if b.whereConditions.length > 0 then
    parts ++ ["where " ++ String.intercalate " & " b.whereConditions] else parts
  String.intercalate "; " parts ++ ";"

end IGDBQueryBuilder

/-- The fresh builder `new IGDBQueryBuilder()`. -/
def emptyBuilder : IGDBQueryBuilder := {}

/-! ### Claim-side formulations for the query builder -/

/-- The clause list exactly as the spec describes it: the fixed order
fields, sort, limit, offset, search, where, each clause present only if
non-empty. -/
def clauseListSpec (b : IGDBQueryBuilder) : List String :=
  (if b.fields = [] then [] else ["fields " ++ String.intercalate "," b.fields]) ++
  (if b.sortFields = [] then [] else ["sort " ++ String.intercalate "," b.sortFields]) ++
  (match b.limitValue with | some v => ["limit " ++ toString v] | none => []) ++
  (match b.offsetValue with | some v => ["offset " ++ toString v] | none => []) ++
  (match b.searchValue with
    | some t => if t = "" then [] else ["search \"" ++ t ++ "\""]
    | none => []) ++
  (if b.whereConditions = [] then []
    else ["where " ++ String.intercalate " & " b.whereConditions])

/-- Clamping as the spec words it: values below the range go to the lower
bound, values above go to the upper bound, in-range values are unchanged. -/
def clampSpec (lo hi v : Int) : Int :=
  if v < lo then lo else if v > hi then hi else v

private lemma append_ite (xs : List String) (c : Prop) [Decidable c] (x : String) :
    (if c then xs ++ [x] else xs) = xs ++ (if c then [x] else []) := by
  split <;> simp

private lemma append_match_opt (xs : List String) (o : Option Int) (f : Int → String) :
    (match o with | some v => xs ++ [f v] | none => xs) =
      xs ++ (match o with | some v => [f v] | none => []) := by
  cases o <;> simp

/-- **C4.** Query rendering order and format: for every builder state,
`build()` emits the clauses in the fixed order fields, sort, limit, offset,
search, where, each only if non-empty, joined by `"; "` and terminated by
`";"`; and the concrete builder with fields `["id","name"]`, where-condition
`"rating > 80"`, sort `"rating desc"`, limit `5` builds exactly
`"fields id,name; sort rating desc; limit 5; where rating > 80;"`. -/
theorem build_clause_order :
    (∀ b : IGDBQueryBuilder,
      b.build = String.intercalate "; " (clauseListSpec b) ++ ";") ∧
    ((((emptyBuilder.select ["id", "name"]).whereCond "rating > 80").sortBy
        "rating" "desc").limit 5).build =
      "fields id,name; sort rating desc; limit 5; where rating > 80;" := by
  constructor
  · intro b
    rcases b with ⟨fs, wc, sf, lv, ov, sv, idf⟩
    simp only [IGDBQueryBuilder.build, clauseListSpec]
    cases fs <;> cases sf <;> cases wc <;> cases lv <;> cases ov <;> cases sv <;>
      simp [List.length_pos, bne_iff_ne, ite_not, apply_ite (· ++ ";")] <;>
      (split <;> simp)
  · rfl

/-- **C5 (counterexample).** The claim predicts the where-clause fragment
`(a|b)`; the code joins the alternatives with `" | "`, giving `(a | b)`, so
the built string differs from the claimed one. -/
theorem whereOr_spacing_cex :
    (emptyBuilder.whereOr ["a", "b"]).build = "where (a | b);" ∧
    (emptyBuilder.whereOr ["a", "b"]).build ≠ "where (a|b);" := by
  constructor
  · rfl
  · decide

/-- **C5 (amended).** `whereOr("a","b")` pushes the single where-condition
`"(a | b)"` (alternatives joined by `" | "`, with spaces), and `build()`
combines it with any other where-conditions via `" & "`; concretely a
builder holding the condition `"c"` renders `"where c & (a | b);"`. -/
theorem whereOr_rendering_amended (b : IGDBQueryBuilder) (cs : List String)
    (h : cs ≠ []) :
    (b.whereOr cs).whereConditions =
      b.whereConditions ++ ["(" ++ String.intercalate " | " cs ++ ")"] ∧
    ((emptyBuilder.whereCond "c").whereOr ["a", "b"]).build = "where c & (a | b);" := by
  constructor
  · unfold IGDBQueryBuilder.whereOr
    rw [if_pos]
    exact List.length_pos.mpr h
  · rfl

/-- Witness for the amended C5 at the concrete input of the claim. -/
theorem whereOr_rendering_amended_witness :
    (emptyBuilder.whereOr ["a", "b"]).whereConditions = ["(a | b)"] ∧
    ((emptyBuilder.whereCond "c").whereOr ["a", "b"]).build = "where c & (a | b);" := by
  have h := whereOr_rendering_amended emptyBuilder ["a", "b"] (by decide)
  exact ⟨h.1, h.2⟩

/-- **C6.** Pagination clamping: `limit(v)` stores the clamp of `v` into
`[1, 500]` and `offset(v)` stores the clamp of `v` into `[0, 10000]`, for
every integer `v` and builder state, with the concrete instances named by
the spec.  (Every builder operation of the embedding is a total function:
no input is rejected.) -/
theorem pagination_clamping :
    (∀ (b : IGDBQueryBuilder) (v : Int),
      (b.limit v).limitValue = some (clampSpec 1 500 v) ∧
      (b.offset v).offsetValue = some (clampSpec 0 10000 v)) ∧
    (emptyBuilder.limit 0).limitValue = some 1 ∧
    (emptyBuilder.limit 10000).limitValue = some 500 ∧
    (emptyBuilder.limit 42).limitValue = some 42 ∧
    (emptyBuilder.offset (-5)).offsetValue = some 0 ∧
    (emptyBuilder.offset 999999).offsetValue = some 10000 := by
  refine ⟨fun b v => ⟨?_, ?_⟩, by decide, by decide, by decide, by decide, by decide⟩
  · unfold IGDBQueryBuilder.limit clampSpec
    rcases lt_trichotomy v 1 with h | h | h <;>
      rcases lt_trichotomy v 500 with h' | h' | h' <;>
        simp [max_def, min_def] <;> omega
  · unfold IGDBQueryBuilder.offset clampSpec
    rcases lt_trichotomy v 0 with h | h | h <;>
      rcases lt_trichotomy v 10000 with h' | h' | h' <;>
        simp [max_def, min_def] <;> omega

/-! ## Credential check (`checkClientProperties`, src/utils)

`IGDBClientOptions` carries the two credentials; a missing credential is
`none`, an empty one is `some ""` (both falsy in JavaScript). -/

structure IGDBClientOptions where
  clientId : Option String
  clientSecret : Option String
deriving Repr, DecidableEq

/-- JS `array.filter(Boolean)` over possibly-absent strings: keeps the
present, non-empty ones. -/
def filterTruthy (xs : List (Option String)) : List String :=
  xs.filterMap fun x => match x with
    | some s => if s != "" then some s else none
    | none => none

/-- `checkClientProperties(options)`: the guard and the inner
`filter(Boolean)` / length test exactly as in the source; a thrown error is
the `Except.error` branch, falling through is `Except.ok ()`. -/
def checkClientProperties (options : IGDBClientOptions) : Except String Unit :=
  if !truthyS options.clientId || !truthyS options.clientSecret then
    let unsetProperties := filterTruthy [options.clientId, options.clientSecret]
    if unsetProperties.length > 0 then
      .error ("[IGDB Client] Missing required properties: " ++
        String.intercalate ", " unsetProperties)
    else .ok ()
  else .ok ()

/-- **C7 (code bug).** Evaluating `checkClientProperties` shows that when
*both* credentials are missing or empty the check returns normally instead
of throwing — `filter(Boolean)` keeps the *present* values, so the
"unsetProperties" list is empty exactly when everything is missing — while
a single missing credential does throw (listing the present one as
missing).  The claim (construction fails fast whenever a credential is
missing) is the evident intent of the error message and of the spec. -/
theorem checkClientProperties_both_missing_eval :
    checkClientProperties ⟨none, none⟩ = .ok () ∧
    checkClientProperties ⟨some "", some ""⟩ = .ok () ∧
    checkClientProperties ⟨some "abc", none⟩ =
      .error "[IGDB Client] Missing required properties: abc" ∧
    checkClientProperties ⟨none, some "sec"⟩ =
      .error "[IGDB Client] Missing required properties: sec" ∧
    checkClientProperties ⟨some "abc", some "sec"⟩ = .ok () := by
  exact ⟨rfl, rfl, rfl, rfl, rfl⟩

/-! ## Route request building (`IGDBRouteBase`, routes/base.ts) -/

/-- The recognized per-request options (`IGDBRouteRequestOptions`), with the
same defaults the destructuring in `makeRequest` applies.  (`where` is a
Lean keyword, hence `whereOpt`.) -/
structure RouteOptions where
  fields : List String := []
  includeDefaultFields : Bool := true
  sort : Option String := none
  limit : Option Int := none
  offset : Option Int := none
  search : Option String := none
  whereOpt : Option String := none
deriving Repr, DecidableEq

/-- Modelled from the spec: `RATE_LIMIT.MAX_LIMIT_PER_REQUEST` lives in
`routes/constants.ts`, which is not among the sources; the spec fixes the
limit range as `[1, 500]`. -/
def MAX_LIMIT_PER_REQUEST : Int := 500

/-- Modelled from the spec: `RATE_LIMIT.MAX_OFFSET` lives in
`routes/constants.ts`, which is not among the sources; the spec fixes the
offset range as `[0, 10000]`. -/
def MAX_OFFSET : Int := 10000

/-- `[...new Set(xs)]`: the first occurrences, in insertion order. -/
def jsSetDedup (xs : List String) : List String :=
  xs.foldl (fun acc x => if x ∈ acc then acc else acc ++ [x]) []

/-- The `selectedFields` local of `makeRequest`: caller fields merged with
the entity's default fields when `includeDefaultFields` is enabled.  The
per-entity `defaultFields` table lives in `routes/constants.ts` (not among
the sources), so the entry for the route's key is the `defaults`
parameter. -/
def selectedFieldsOf (defaults : List String) (o : RouteOptions) : List String :=
  if o.includeDefaultFields then o.fields ++ defaults else o.fields

/-- The `uniqueFields` local of `makeRequest`:
`[...new Set(selectedFields)].filter(Boolean)`. -/
def uniqueFieldsOf (defaults : List String) (o : RouteOptions) : List String :=
  (jsSetDedup (selectedFieldsOf defaults o)).filter (fun f => f != "")

/-- The `requestBody` string `IGDBRouteBase.makeRequest` builds and posts,
statement by statement from the source. -/
def makeRequestBody (defaults : List String) (o : RouteOptions) : String :=
  let requestBody := "fields " ++ String.intercalate "," (uniqueFieldsOf defaults o)
  let requestBody := match o.sort with
    | some s => if s != "" then requestBody ++ "; sort " ++ s else requestBody
    | none => requestBody
  let requestBody := match o.limit with
    | some l => requestBody ++ "; limit " ++ toString (max 1 (min l MAX_LIMIT_PER_REQUEST))
    | none => requestBody
  let requestBody := match o.offset with
    | some v => requestBody ++ "; offset " ++ toString (max 0 (min v MAX_OFFSET))
    | none => requestBody
  let requestBody := match o.search with
    | some t => if t != "" then requestBody ++ "; search \"" ++ t ++ "\"" else requestBody
    | none => requestBody
  let requestBody := match o.whereOpt with
    | some w => if w != "" then requestBody ++ "; where " ++ w else requestBody
    | none => requestBody
  requestBody ++ ";"

/-- `IGDBRouteBase.getById(id, options)`: the body of the single request it
makes — the caller options overridden with `where: id = <id>` and
`limit: 1`. -/
def getByIdBody (defaults : List String) (id : Int) (o : RouteOptions) : String :=
  makeRequestBody defaults
    { o with whereOpt := some ("id = " ++ toString id), limit := some 1 }

/-- `IGDBGamesRoute.getGame(id, options)`: runs `getById` through the
transport (the request handler, abstracted as a function from the posted
body to the decoded response) and maps an empty result list to `null`
(`none`); a failed request is the `Except.error` branch and propagates. -/
def getGame {α : Type} (defaults : List String) (id : Int) (o : RouteOptions)
    (transport : String → Except String (List α)) : Except String (Option α) :=
  match transport (getByIdBody defaults id o) with
  | .error e => .error e
  | .ok result => .ok (match result with | [] => none | x :: _ => some x)

/-- `IGDBRouteBase.getByIds(ids, options)`, request part: `none` models the
early `return []` (no request issued); `some body` is the one request
made, with the `id = …` where-condition built from the list shape. -/
def getByIdsBody (defaults : List String) (ids : List Int) (o : RouteOptions) :
    Option String :=
  if ids.length = 0 then none
  else
    let idsString := if ids.length = 1 then toString (ids.headD 0)
      else "(" ++ String.intercalate "," (ids.map toString) ++ ")"
    some (makeRequestBody defaults { o with whereOpt := some ("id = " ++ idsString) })

/-- `IGDBRouteBase.getByIds`, result part: the early return yields `[]`
without consulting the transport. -/
def getByIdsRun {α : Type} (defaults : List String) (ids : List Int) (o : RouteOptions)
    (transport : String → Except String (List α)) : Except String (List α) :=
  match getByIdsBody defaults ids o with
  | none => .ok []
  | some body => transport body

/-- **C8.** Not-found is not an error: whenever the API response to the
single-entity lookup is the empty list, `getGame` returns the explicit
"no result" value `none` (not an `Except.error`). -/
theorem not_found_returns_null {α : Type} (defaults : List String) (id : Int)
    (o : RouteOptions) (transport : String → Except String (List α))
    (h : transport (getByIdBody defaults id o) = .ok []) :
    getGame defaults id o transport = .ok none := by
  unfold getGame
  rw [h]

/-- Witness for C8: a transport answering the empty list makes `getGame`
return `ok none`. -/
theorem not_found_returns_null_witness :
    getGame (α := Nat) ["id", "name"] 42 {} (fun _ => .ok []) = .ok none :=
  not_found_returns_null ["id", "name"] 42 {} (fun _ => .ok []) rfl

private lemma mem_foldl_dedup (xs : List String) (acc : List String) (y : String) :
    y ∈ xs.foldl (fun acc x => if x ∈ acc then acc else acc ++ [x]) acc ↔
      y ∈ acc ∨ y ∈ xs := by
  induction xs generalizing acc with
  | nil => simp
  | cons x xs ih =>
    simp only [List.foldl_cons]
    split
    · rw [ih]
      constructor
      · rintro (h | h)
        · exact Or.inl h
        · exact Or.inr (List.mem_cons_of_mem _ h)
      · rintro (h | h)
        · exact Or.inl h
        · rcases List.mem_cons.mp h with rfl | h
          · exact Or.inl ‹y ∈ acc›
          · exact Or.inr h
    · rw [ih]
      simp [List.mem_append, or_assoc]

private lemma nodup_foldl_dedup (xs : List String) (acc : List String)
    (hacc : acc.Nodup) :
    (xs.foldl (fun acc x => if x ∈ acc then acc else acc ++ [x]) acc).Nodup := by
  induction xs generalizing acc with
  | nil => simpa
  | cons x xs ih =>
    simp only [List.foldl_cons]
    split
    · exact ih acc hacc
    · exact ih _ (by
        rw [List.nodup_append]
        exact ⟨hacc, List.nodup_singleton x, by simpa using ‹¬ x ∈ acc›⟩)

/-- **C9.** Duplicate-field asymmetry: with `includeDefaultFields` enabled
(the default) the route layer's fields list is the de-duplicated merge of
the caller fields with the entity defaults, empty strings removed — it has
no duplicates and contains exactly the non-empty members of either list —
while the raw query-builder `select()` accumulates fields in insertion
order with no de-duplication, so a field added twice appears twice in the
built fields clause. -/
theorem duplicate_field_asymmetry :
    (∀ (defaults : List String) (o : RouteOptions),
      o.includeDefaultFields = true →
        (uniqueFieldsOf defaults o).Nodup ∧
        (∀ f, f ∈ uniqueFieldsOf defaults o ↔
          (f ∈ o.fields ∨ f ∈ defaults) ∧ f ≠ "")) ∧
    makeRequestBody ["id", "name"] { fields := ["name", "rating", ""] } =
      "fields name,rating,id;" ∧
    (∀ (b : IGDBQueryBuilder) (fs : List String),
      (b.select fs).fields = b.fields ++ fs) ∧
    ((emptyBuilder.select ["name"]).select ["name"]).build = "fields name,name;" := by
  refine ⟨fun defaults o hdef => ⟨?_, ?_⟩, by rfl, fun b fs => rfl, by rfl⟩
  · exact List.Nodup.filter _ (nodup_foldl_dedup _ _ List.nodup_nil)
  · intro f
    unfold uniqueFieldsOf jsSetDedup selectedFieldsOf
    rw [hdef, if_pos rfl]
    simp [List.mem_filter, mem_foldl_dedup]

/-- Witness for C9 at a concrete input: caller fields `["id","id",""]`
merged with defaults `["id","name"]` give the de-duplicated, empty-free
list. -/
theorem duplicate_field_asymmetry_witness :
    (uniqueFieldsOf ["id", "name"] { fields := ["id", "id", ""] }).Nodup ∧
    ("name" ∈ uniqueFieldsOf ["id", "name"] { fields := ["id", "id", ""] } ↔
      (("name" ∈ ["id", "id", ""] ∨ "name" ∈ ["id", "name"]) ∧ "name" ≠ "")) := by
  have h := duplicate_field_asymmetry.1 ["id", "name"] { fields := ["id", "id", ""] } rfl
  exact ⟨h.1, h.2 "name"⟩

/-- **C10.** `getByIds` with an empty identifier list returns `[]`
immediately and issues no request; with one identifier the where-condition
is `id = <id>` without parentheses; with two or more it is
`id = (<comma-joined ids>)` — with two fully rendered instances. -/
theorem getByIds_empty_and_format :
    (∀ (α : Type) (defaults : List String) (o : RouteOptions)
        (transport : String → Except String (List α)),
      getByIdsBody defaults [] o = none ∧
      getByIdsRun defaults [] o transport = .ok []) ∧
    (∀ (defaults : List String) (o : RouteOptions) (i : Int),
      getByIdsBody defaults [i] o =
        some (makeRequestBody defaults
          { o with whereOpt := some ("id = " ++ toString i) })) ∧
    (∀ (defaults : List String) (o : RouteOptions) (i j : Int) (rest : List Int),
      getByIdsBody defaults (i :: j :: rest) o =
        some (makeRequestBody defaults
          { o with whereOpt := some ("id = (" ++
              String.intercalate "," ((i :: j :: rest).map toString) ++ ")") })) ∧
    getByIdsBody ["name"] [7] {} = some "fields name; where id = 7;" ∧
    getByIdsBody ["name"] [1, 2, 3] {} = some "fields name; where id = (1,2,3);" := by
  refine ⟨fun α defaults o transport => ⟨rfl, rfl⟩, fun defaults o i => ?_,
    fun defaults o i j rest => ?_, by rfl, by rfl⟩
  · rfl
  · have h : ∀ X : String, "id = " ++ ("(" ++ X ++ ")") = "id = (" ++ X ++ ")" := by
      intro X
      rw [← String.append_assoc, ← String.append_assoc]
      rfl
    unfold getByIdsBody
    simp [h (String.intercalate "," (toString i :: toString j :: List.map toString rest))]

/-! ## Token manager (`IGDBTokenManager`, src/token-manager.ts)

The manager's mutable state is the stored token/expiry pair plus the
in-flight refresh handle (`tokenPromise`).  Times are `Date.now()`
milliseconds as `Int`; `expires_in` is in seconds, as the identity
provider reports it. -/

/-- `TokenResponse` from `@types/types.ts`. -/
structure TokenResponse where
  access_token : String
  expires_in : Int
  token_type : String
deriving Repr, DecidableEq

/-- The token-holding fields of `IGDBTokenManager`. -/
structure TokenState where
  accessToken : Option String
  expiresAt : Option Int
deriving Repr, DecidableEq

/-- `hasValidToken()`:
`accessToken !== null && expiresAt !== null && Date.now() < expiresAt`. -/
def hasValidToken (s : TokenState) (now : Int) : Bool :=
  match s.accessToken, s.expiresAt with
  | some _, some e => decide (now < e)
  | _, _ => false

/-! ### Cooperative small-step model of `getValidToken` / `refreshToken`

The spec's concurrency model is single-threaded and cooperative: code
between `await`s runs atomically; a scheduler interleaves the callers'
and the refresh coroutine's synchronous regions.  `refreshToken()` has two
suspension points (the `fetch` and `response.json()`); invoking it runs
its body synchronously up to the first `await`, so the network call is
issued before the creating caller suspends. -/

/-- Environment outcome of the refresh `fetch`: either a `Response` (with
its `ok` flag and status line) or a rejection (network error), carrying
its JS string rendering. -/
inductive FetchOutcome where
  | response (ok : Bool) (status : Nat) (statusText : String)
  | reject (cause : String)
deriving Repr, DecidableEq

instance {ε α : Type} [DecidableEq ε] [DecidableEq α] : DecidableEq (Except ε α)
  | .ok a, .ok b => if h : a = b then .isTrue (by rw [h]) else .isFalse (by simp [h])
  | .ok _, .error _ => .isFalse (by simp)
  | .error _, .ok _ => .isFalse (by simp)
  | .error a, .error b => if h : a = b then .isTrue (by rw [h]) else .isFalse (by simp [h])

/-- Phases of one `refreshToken()` coroutine (one promise): suspended at
the `fetch` await, suspended at the `response.json()` await, or settled
with a token or a wrapped error message. -/
inductive RefreshPhase where
  | awaitingFetch
  | awaitingJson
  | resolved (r : Except String String)
deriving Repr, DecidableEq

/-- State of one logical caller of `getValidToken`. -/
inductive CallerSt where
  | notStarted
  /-- joined the in-flight promise `pid` via `return this.tokenPromise` -/
  | joined (pid : Nat)
  /-- created promise `pid`; will run the `finally` that clears
  `this.tokenPromise` when the promise settles -/
  | owner (pid : Nat)
  | done (r : Except String String)
deriving Repr, DecidableEq

/-- The whole system: one `IGDBTokenManager` plus the logical callers.
`promises` records every refresh coroutine ever started (its index is the
promise id); `fetchCount` counts refresh network calls issued. -/
structure Sys where
  token : TokenState
  tokenPromise : Option Nat
  promises : List RefreshPhase
  callers : List CallerSt
  fetchCount : Nat
deriving Repr, DecidableEq

/-- Scheduler actions; `now` is `Date.now()` during the corresponding
synchronous region. -/
inductive Action where
  | invoke (i : Nat) (now : Int)
  | fetchResolved (pid : Nat) (outcome : FetchOutcome)
  | jsonResolved (pid : Nat) (res : Except String TokenResponse) (now : Int)
  | settle (i : Nat)
deriving Repr, DecidableEq

/-- The tail of `getValidToken` when no usable token is held: join the
in-flight promise if there is one (`return this.tokenPromise`), else call
`refreshToken()` — which synchronously issues the `fetch` — store the new
promise in `this.tokenPromise` and suspend awaiting it. -/
def startOrJoin (s : Sys) (i : Nat) : Sys :=
  match s.tokenPromise with
  | some pid => { s with callers := s.callers.set i (.joined pid) }
  | none =>
    { s with promises := s.promises ++ [.awaitingFetch],
             tokenPromise := some s.promises.length,
             fetchCount := s.fetchCount + 1,
             callers := s.callers.set i (.owner s.promises.length) }

/-- `getValidToken()` up to its first suspension: the guard is the JS
truthiness check `this.accessToken && this.expiresAt && Date.now() <
this.expiresAt` (an empty token string and a zero timestamp are falsy);
a caller that already ran is left untouched. -/
def invokeStep (s : Sys) (i : Nat) (now : Int) : Sys :=
  match s.callers[i]? with
  | some .notStarted =>
    match s.token.accessToken, s.token.expiresAt with
    | some tok, some e =>
      if tok != "" && e != 0 && decide (now < e) then
        { s with callers := s.callers.set i (.done (.ok tok)) }
      else startOrJoin s i
    | _, _ => startOrJoin s i
  | _ => s

/-- The refresh coroutine's region after the `fetch` await: on
`!response.ok` it throws `Failed to refresh token: <status> <statusText>`,
and the `catch` clears the stored token/expiry and rejects the promise
with `Token refresh failed: ${error}` (a thrown `Error` renders as
`Error: <message>`); on an ok response it suspends at `response.json()`. -/
def fetchStep (s : Sys) (pid : Nat) (outcome : FetchOutcome) : Sys :=
  match s.promises[pid]? with
  | some .awaitingFetch =>
    match outcome with
    | .response true _ _ => { s with promises := s.promises.set pid .awaitingJson }
    | .response false status statusText =>
      { s with token := ⟨none, none⟩,
               promises := s.promises.set pid (.resolved (.error
                 ("Token refresh failed: Error: Failed to refresh token: " ++
                   toString status ++ " " ++ statusText))) }
    | .reject cause =>
      { s with token := ⟨none, none⟩,
               promises := s.promises.set pid (.resolved (.error
                 ("Token refresh failed: " ++ cause))) }
  | _ => s

/-- The region after the `response.json()` await: on success store the
token, set `expiresAt = Date.now() + (expires_in - 300) * 1000` (the
5-minute safety buffer), and resolve the promise with the token; a
rejection from `json()` is caught like any other error. -/
def jsonStep (s : Sys) (pid : Nat) (res : Except String TokenResponse) (now : Int) : Sys :=
  match s.promises[pid]? with
  | some .awaitingJson =>
    match res with
    | .ok data =>
      { s with token := ⟨some data.access_token,
                 some (now + (data.expires_in - 300) * 1000)⟩,
               promises := s.promises.set pid (.resolved (.ok data.access_token)) }
    | .error cause =>
      { s with token := ⟨none, none⟩,
               promises := s.promises.set pid (.resolved (.error
                 ("Token refresh failed: " ++ cause))) }
  | _ => s

/-- A waiter's continuation once its promise has settled: it completes
with the promise's result; the owner additionally runs the `finally`
clause, clearing `this.tokenPromise`. -/
def settleStep (s : Sys) (i : Nat) : Sys :=
  match s.callers[i]? with
  | some (.joined pid) =>
    match s.promises[pid]? with
    | some (.resolved r) => { s with callers := s.callers.set i (.done r) }
    | _ => s
  | some (.owner pid) =>
    match s.promises[pid]? with
    | some (.resolved r) =>
      { s with callers := s.callers.set i (.done r), tokenPromise := none }
    | _ => s
  | _ => s

/-- One scheduler step.  An action whose precondition does not hold (a
promise not in the right phase, a caller not in the right state) is a
no-op, so every action list is a legal schedule. -/
def step (s : Sys) (a : Action) : Sys :=
  match a with
  | .invoke i now => invokeStep s i now
  | .fetchResolved pid outcome => fetchStep s pid outcome
  | .jsonResolved pid res now => jsonStep s pid res now
  | .settle i => settleStep s i

/-- Run a schedule. -/
def run (s : Sys) (as : List Action) : Sys := as.foldl step s

/-- A fresh manager with `N` callers, starting from token state `t0`. -/
def Sys.init (N : Nat) (t0 : TokenState) : Sys :=
  { token := t0, tokenPromise := none, promises := [],
    callers := List.replicate N .notStarted, fetchCount := 0 }

/-- **C2.** Token expiry arithmetic: a successful refresh finishing at
time `now` stores `expiresAt = now + (expires_in - 300) * 1000` — the
refresh time plus the server-reported `expires_in` seconds minus the fixed
300-second safety buffer, in milliseconds; and for every token state with
stored expiry `e`, validity at `T` implies `T < e`, and the token is
invalid at every `T ≥ e`, including exactly at `T = e`. -/
theorem token_expiry_arithmetic (s : Sys) (pid : Nat) (data : TokenResponse)
    (now : Int) (h : s.promises[pid]? = some .awaitingJson) :
    (step s (.jsonResolved pid (.ok data) now)).token.expiresAt =
      some (now + (data.expires_in - 300) * 1000) ∧
    (∀ (ts : TokenState) (e T : Int), ts.expiresAt = some e →
      hasValidToken ts T = true → T < e) ∧
    (∀ (ts : TokenState) (e T : Int), ts.expiresAt = some e → e ≤ T →
      hasValidToken ts T = false) := by
  refine ⟨?_, ?_, ?_⟩
  · simp [step, jsonStep, h]
  · intro ts e T he hv
    rcases ts with ⟨a, ea⟩
    unfold hasValidToken at hv
    cases a <;> cases ea <;> simp_all
  · intro ts e T he hle
    rcases ts with ⟨a, ea⟩
    unfold hasValidToken
    cases a <;> cases ea <;> simp_all

/-- Witness for C2: a refresh with `expires_in = 3600` finishing at time
1000 stores `expiresAt = 3301000`, and the stored token is already invalid
exactly at that instant. -/
theorem token_expiry_arithmetic_witness :
    (step ⟨⟨none, none⟩, some 0, [.awaitingJson], [.owner 0], 1⟩
        (.jsonResolved 0 (.ok ⟨"tok", 3600, "bearer"⟩) 1000)).token.expiresAt =
      some 3301000 ∧
    hasValidToken ⟨some "tok", some 3301000⟩ 3301000 = false := by
  have h := token_expiry_arithmetic ⟨⟨none, none⟩, some 0, [.awaitingJson], [.owner 0], 1⟩
    0 ⟨"tok", 3600, "bearer"⟩ 1000 rfl
  refine ⟨h.1.trans (by norm_num), ?_⟩
  exact h.2.2 ⟨some "tok", some 3301000⟩ 3301000 3301000 rfl (by omega)

/-- The truthiness guard of `getValidToken` passes only on a token
`hasValidToken` deems valid, so with no valid token held a fresh caller
proceeds to join or start a refresh. -/
lemma invokeStep_no_valid (s : Sys) (i : Nat) (now : Int)
    (hv : hasValidToken s.token now = false)
    (hc : s.callers[i]? = some .notStarted) :
    invokeStep s i now = startOrJoin s i := by
  unfold invokeStep
  rw [hc]
  rcases ha : s.token.accessToken with _ | tok <;>
    rcases he : s.token.expiresAt with _ | e <;> simp only []
  unfold hasValidToken at hv
  rw [ha, he] at hv
  simp only [decide_eq_false_iff_not] at hv
  rw [if_neg]
  simp [hv]

/-- **C3.** Refresh failure recovery: starting with no valid token, a
caller whose refresh fails completes with the error wrapping the
underlying cause, the stored token and expiry are cleared (state
`NoToken`), and the single `finally` clears the in-flight handle before
the operation completes; the immediately following `getValidToken` call
then starts a new refresh — a second network call with a fresh promise —
rather than joining the old one.  On the success path the handle is
cleared by the same `finally` as well. -/
theorem refresh_failure_recovery (t0 : TokenState) (now now2 now3 : Int)
    (cause : String) (data : TokenResponse)
    (h : hasValidToken t0 now = false) :
    ((run (Sys.init 2 t0)
        [.invoke 0 now, .fetchResolved 0 (.reject cause), .settle 0]).callers[0]? =
      some (.done (.error ("Token refresh failed: " ++ cause))) ∧
     (run (Sys.init 2 t0)
        [.invoke 0 now, .fetchResolved 0 (.reject cause), .settle 0]).token =
      ⟨none, none⟩ ∧
     (run (Sys.init 2 t0)
        [.invoke 0 now, .fetchResolved 0 (.reject cause), .settle 0]).tokenPromise =
      none ∧
     (run (Sys.init 2 t0) [.invoke 0 now, .fetchResolved 0 (.reject cause),
        .settle 0, .invoke 1 now2]).fetchCount = 2 ∧
     (run (Sys.init 2 t0) [.invoke 0 now, .fetchResolved 0 (.reject cause),
        .settle 0, .invoke 1 now2]).tokenPromise = some 1 ∧
     (run (Sys.init 2 t0) [.invoke 0 now, .fetchResolved 0 (.reject cause),
        .settle 0, .invoke 1 now2]).promises[1]? = some .awaitingFetch) ∧
    (run (Sys.init 1 t0) [.invoke 0 now, .fetchResolved 0 (.response true 200 "OK"),
        .jsonResolved 0 (.ok data) now3, .settle 0]).tokenPromise = none := by
  have h0 : (Sys.init 2 t0).callers[0]? = some CallerSt.notStarted := rfl
  have e0 : step (Sys.init 2 t0) (.invoke 0 now) =
      { token := t0, tokenPromise := some 0, promises := [.awaitingFetch],
        callers := [.owner 0, .notStarted], fetchCount := 1 } := by
    have hs : step (Sys.init 2 t0) (Action.invoke 0 now) =
        invokeStep (Sys.init 2 t0) 0 now := rfl
    rw [hs, invokeStep_no_valid _ 0 now h h0]
    rfl
  have h0' : (Sys.init 1 t0).callers[0]? = some CallerSt.notStarted := rfl
  have e0' : step (Sys.init 1 t0) (.invoke 0 now) =
      { token := t0, tokenPromise := some 0, promises := [.awaitingFetch],
        callers := [.owner 0], fetchCount := 1 } := by
    have hs : step (Sys.init 1 t0) (Action.invoke 0 now) =
        invokeStep (Sys.init 1 t0) 0 now := rfl
    rw [hs, invokeStep_no_valid _ 0 now h h0']
    rfl
  have e1 : run (Sys.init 2 t0)
      [.invoke 0 now, .fetchResolved 0 (.reject cause), .settle 0] =
      { token := ⟨none, none⟩, tokenPromise := none,
        promises := [.resolved (.error ("Token refresh failed: " ++ cause))],
        callers := [.done (.error ("Token refresh failed: " ++ cause)), .notStarted],
        fetchCount := 1 } := by
    simp only [run, List.foldl_cons, List.foldl_nil]
    rw [e0]
    rfl
  have e2 : run (Sys.init 2 t0) [.invoke 0 now, .fetchResolved 0 (.reject cause),
      .settle 0, .invoke 1 now2] =
      { token := ⟨none, none⟩, tokenPromise := some 1,
        promises := [.resolved (.error ("Token refresh failed: " ++ cause)),
          .awaitingFetch],
        callers := [.done (.error ("Token refresh failed: " ++ cause)), .owner 1],
        fetchCount := 2 } := by
    simp only [run, List.foldl_cons, List.foldl_nil]
    rw [e0]
    rfl
  have e3 : run (Sys.init 1 t0) [.invoke 0 now,
      .fetchResolved 0 (.response true 200 "OK"),
      .jsonResolved 0 (.ok data) now3, .settle 0] =
      { token := ⟨some data.access_token,
          some (now3 + (data.expires_in - 300) * 1000)⟩,
        tokenPromise := none,
        promises := [.resolved (.ok data.access_token)],
        callers := [.done (.ok data.access_token)],
        fetchCount := 1 } := by
    simp only [run, List.foldl_cons, List.foldl_nil]
    rw [e0']
    rfl
  rw [e1, e2, e3]
  exact ⟨⟨rfl, rfl, rfl, rfl, rfl, rfl⟩, rfl⟩

/-- Witness for C3: the failure-and-retry episode at a fully concrete
input. -/
theorem refresh_failure_recovery_witness :
    (run (Sys.init 2 ⟨none, none⟩)
        [.invoke 0 0, .fetchResolved 0 (.reject "boom"), .settle 0]).callers[0]? =
      some (.done (.error "Token refresh failed: boom")) ∧
    (run (Sys.init 2 ⟨none, none⟩)
        [.invoke 0 0, .fetchResolved 0 (.reject "boom"), .settle 0]).tokenPromise = none ∧
    (run (Sys.init 2 ⟨none, none⟩) [.invoke 0 0, .fetchResolved 0 (.reject "boom"),
        .settle 0, .invoke 1 5]).fetchCount = 2 := by
  have h := refresh_failure_recovery ⟨none, none⟩ 0 5 7 "boom" ⟨"tok", 3600, "bearer"⟩ rfl
  exact ⟨h.1.1, h.1.2.2.1, h.1.2.2.2.1⟩

/-! ### Single-flight refresh (C1)

The N concurrent callers of the claim all arrive (phase 1: invocations,
at times where no valid token is held, plus waiter wake-ups, which are
no-ops before the promise settles) before the refresh produces any result
(phase 2: fetch/json resolutions and wake-ups, no further invocations).
The proofs are invariant preservation along arbitrary schedules of each
phase. -/

/-- Phase-1 actions: invocations while `hasValidToken` is false on the
initial token state, and wake-ups; no resolutions. -/
def phase1Ok (t0 : TokenState) : Action → Bool
  | .invoke _ now => !hasValidToken t0 now
  | .settle _ => true
  | _ => false

/-- Phase-2 actions: anything but a further invocation. -/
def phase2Ok : Action → Bool
  | .invoke _ _ => false
  | _ => true

/-- Caller states reachable before the refresh resolves: untouched, or
awaiting the unique promise 0 as owner or joiner. -/
def CallerPre (c : CallerSt) : Prop :=
  c = CallerSt.notStarted ∨ c = CallerSt.owner 0 ∨ c = CallerSt.joined 0

/-- Phase-1 invariant: the token state is untouched, every network call
corresponds to a started promise, and either no refresh has started or
exactly the one promise 0 is in flight with every caller still pending
on it (or untouched). -/
def Inv1 (N : Nat) (t0 : TokenState) (s : Sys) : Prop :=
  s.token = t0 ∧ s.callers.length = N ∧ s.fetchCount = s.promises.length ∧
  ((s.promises = [] ∧ s.tokenPromise = none ∧
      ∀ c ∈ s.callers, c = CallerSt.notStarted) ∨
   (s.promises = [RefreshPhase.awaitingFetch] ∧ s.tokenPromise = some 0 ∧
      ∀ c ∈ s.callers, CallerPre c))

lemma startOrJoin_inv1 (N : Nat) (t0 : TokenState) (s : Sys) (i : Nat)
    (hInv : Inv1 N t0 s) :
    Inv1 N t0 (startOrJoin s i) ∧
      (startOrJoin s i).promises = [RefreshPhase.awaitingFetch] := by
  obtain ⟨htok, hlen, hfc, hcase⟩ := hInv
  rcases hcase with ⟨hp, htp, hc⟩ | ⟨hp, htp, hc⟩ <;>
    simp only [startOrJoin, htp]
  · -- no promise yet: `refreshToken()` starts, one fetch is issued
    refine ⟨⟨htok, by simpa using hlen, by simp [hfc, hp], Or.inr ⟨?_, ?_, ?_⟩⟩, ?_⟩
    · simp [hp]
    · simp [hp]
    · intro c hcm
      rcases List.mem_or_eq_of_mem_set hcm with hm | he
      · exact Or.inl (hc c hm)
      · rw [he, hp]
        exact Or.inr (Or.inl rfl)
    · simp [hp]
  · -- a promise is in flight: the caller joins it
    refine ⟨⟨htok, by simpa using hlen, by simpa using hfc, Or.inr ⟨hp, rfl, ?_⟩⟩, hp⟩
    intro c hcm
    rcases List.mem_or_eq_of_mem_set hcm with hm | he
    · exact hc c hm
    · rw [he]
      exact Or.inr (Or.inr rfl)

lemma inv1_invoke (N : Nat) (t0 : TokenState) (s : Sys) (i : Nat) (now : Int)
    (hInv : Inv1 N t0 s) (hv : hasValidToken t0 now = false) :
    Inv1 N t0 (step s (.invoke i now)) ∧
      (s.promises = [RefreshPhase.awaitingFetch] →
        (step s (.invoke i now)).promises = [RefreshPhase.awaitingFetch]) := by
  have hstep : step s (.invoke i now) = invokeStep s i now := rfl
  rw [hstep]
  rcases hc : s.callers[i]? with _ | c
  · have hno : invokeStep s i now = s := by
      simp only [invokeStep, hc]
    rw [hno]
    exact ⟨hInv, fun h => h⟩
  · have hv' : hasValidToken s.token now = false := by rw [hInv.1]; exact hv
    cases c with
    | notStarted =>
      rw [invokeStep_no_valid s i now hv' hc]
      have h2 := startOrJoin_inv1 N t0 s i hInv
      exact ⟨h2.1, fun _ => h2.2⟩
    | joined pid =>
      have hno : invokeStep s i now = s := by
        simp only [invokeStep, hc]
      rw [hno]
      exact ⟨hInv, fun h => h⟩
    | owner pid =>
      have hno : invokeStep s i now = s := by
        simp only [invokeStep, hc]
      rw [hno]
      exact ⟨hInv, fun h => h⟩
    | done r =>
      have hno : invokeStep s i now = s := by
        simp only [invokeStep, hc]
      rw [hno]
      exact ⟨hInv, fun h => h⟩

/-- While the unique promise is still awaiting its fetch, a wake-up is a
no-op (the settle guard requires a resolved promise). -/
lemma inv1_settle (N : Nat) (t0 : TokenState) (s : Sys) (i : Nat)
    (hInv : Inv1 N t0 s) :
    step s (.settle i) = s := by
  have hstep : step s (.settle i) = settleStep s i := rfl
  rw [hstep]
  rcases hc : s.callers[i]? with _ | c
  · simp only [settleStep, hc]
  · have hmem : c ∈ s.callers := List.getElem?_mem hc
    obtain ⟨htok, hlen, hfc, hcase⟩ := hInv
    cases c with
    | notStarted => simp only [settleStep, hc]
    | done r => simp only [settleStep, hc]
    | joined pid =>
      have hpid : pid = 0 ∧ s.promises = [RefreshPhase.awaitingFetch] := by
        rcases hcase with ⟨hp, htp, hcall⟩ | ⟨hp, htp, hcall⟩
        · have := hcall _ hmem
          cases this
        · rcases hcall _ hmem with h | h | h <;> cases h
          exact ⟨rfl, hp⟩
      obtain ⟨rfl, hp⟩ := hpid
      simp only [settleStep, hc, hp]
      rfl
    | owner pid =>
      have hpid : pid = 0 ∧ s.promises = [RefreshPhase.awaitingFetch] := by
        rcases hcase with ⟨hp, htp, hcall⟩ | ⟨hp, htp, hcall⟩
        · have := hcall _ hmem
          cases this
        · rcases hcall _ hmem with h | h | h <;> cases h
          exact ⟨rfl, hp⟩
      obtain ⟨rfl, hp⟩ := hpid
      simp only [settleStep, hc, hp]
      rfl

lemma inv1_step (N : Nat) (t0 : TokenState) (s : Sys) (a : Action)
    (hInv : Inv1 N t0 s) (ha : phase1Ok t0 a = true) :
    Inv1 N t0 (step s a) ∧
      (s.promises = [RefreshPhase.awaitingFetch] →
        (step s a).promises = [RefreshPhase.awaitingFetch]) := by
  cases a with
  | invoke i now =>
    have hv : hasValidToken t0 now = false := by
      simpa [phase1Ok] using ha
    exact inv1_invoke N t0 s i now hInv hv
  | settle i =>
    rw [inv1_settle N t0 s i hInv]
    exact ⟨hInv, fun h => h⟩
  | fetchResolved pid o => simp [phase1Ok] at ha
  | jsonResolved pid r n => simp [phase1Ok] at ha

lemma inv1_run (N : Nat) (t0 : TokenState) (p : List Action) :
    ∀ s : Sys, Inv1 N t0 s → (∀ a ∈ p, phase1Ok t0 a = true) →
    Inv1 N t0 (run s p) ∧
      (s.promises = [RefreshPhase.awaitingFetch] →
        (run s p).promises = [RefreshPhase.awaitingFetch]) := by
  induction p with
  | nil => exact fun s hs _ => ⟨hs, fun h => h⟩
  | cons a p ih =>
    intro s hs hp
    have h1 := inv1_step N t0 s a hs (hp a (List.mem_cons_self a p))
    have h2 := ih (step s a) h1.1 (fun b hb => hp b (List.mem_cons_of_mem a hb))
    have hr : run s (a :: p) = run (step s a) p := by
      simp [run]
    rw [hr]
    exact ⟨h2.1, fun h => h2.2 (h1.2 h)⟩

/-- An invocation by a caller that exists (index below N) while no valid
token is held starts the refresh (or finds it already started). -/
lemma invoke_starts (N : Nat) (t0 : TokenState) (s : Sys) (i : Nat) (now : Int)
    (hInv : Inv1 N t0 s) (hv : hasValidToken t0 now = false) (hi : i < N) :
    (step s (.invoke i now)).promises = [RefreshPhase.awaitingFetch] := by
  obtain ⟨htok, hlen, hfc, hcase⟩ := hInv
  have hilen : i < s.callers.length := by omega
  rcases hc : s.callers[i]? with _ | c
  · rw [List.getElem?_eq_none_iff] at hc
    omega
  · have hmem : c ∈ s.callers := List.getElem?_mem hc
    rcases hcase with ⟨hp, htp, hcall⟩ | ⟨hp, htp, hcall⟩
    · have hcn : c = CallerSt.notStarted := hcall c hmem
      subst hcn
      have hv' : hasValidToken s.token now = false := by rw [htok]; exact hv
      have hso : step s (.invoke i now) = startOrJoin s i :=
        invokeStep_no_valid s i now hv' hc
      rw [hso]
      simp only [startOrJoin, htp]
      simp [hp]
    · exact (inv1_invoke N t0 s i now ⟨htok, hlen, hfc, Or.inr ⟨hp, htp, hcall⟩⟩ hv).2 hp

/-- Phase-2 invariant: one fetch was issued, exactly one promise exists,
and every caller is still pending on it or has completed with that
promise's resolved value. -/
def Inv2 (s : Sys) : Prop :=
  s.fetchCount = 1 ∧ s.promises.length = 1 ∧
  ∀ c ∈ s.callers, CallerPre c ∨
    ∃ r, c = CallerSt.done r ∧ s.promises[0]? = some (.resolved r)

lemma inv2_step (s : Sys) (a : Action) (hInv : Inv2 s) (ha : phase2Ok a = true) :
    Inv2 (step s a) := by
  obtain ⟨hfc, hlen, hcall⟩ := hInv
  cases a with
  | invoke i now => simp [phase2Ok] at ha
  | fetchResolved pid outcome =>
    have hstep : step s (.fetchResolved pid outcome) = fetchStep s pid outcome := rfl
    rw [hstep]
    rcases hp : s.promises[pid]? with _ | ph
    · simp only [fetchStep, hp]
      exact ⟨hfc, hlen, hcall⟩
    · have hpid : pid = 0 := by
        rcases List.getElem?_eq_some_iff.mp hp with ⟨hlt, _⟩
        omega
      subst hpid
      cases ph with
      | awaitingFetch =>
        have hnodone : ∀ c ∈ s.callers, CallerPre c := by
          intro c hcm
          rcases hcall c hcm with h | ⟨r, hr, hres⟩
          · exact h
          · rw [hp] at hres
            simp at hres
        cases outcome with
        | response ok status st =>
          cases ok with
          | true =>
            simp only [fetchStep, hp]
            exact ⟨hfc, by simpa using hlen, fun c hcm => Or.inl (hnodone c hcm)⟩
          | false =>
            simp only [fetchStep, hp]
            exact ⟨hfc, by simpa using hlen, fun c hcm => Or.inl (hnodone c hcm)⟩
        | reject cause =>
          simp only [fetchStep, hp]
          exact ⟨hfc, by simpa using hlen, fun c hcm => Or.inl (hnodone c hcm)⟩
      | awaitingJson =>
        simp only [fetchStep, hp]
        exact ⟨hfc, hlen, hcall⟩
      | resolved r =>
        simp only [fetchStep, hp]
        exact ⟨hfc, hlen, hcall⟩
  | jsonResolved pid res now =>
    have hstep : step s (.jsonResolved pid res now) = jsonStep s pid res now := rfl
    rw [hstep]
    rcases hp : s.promises[pid]? with _ | ph
    · simp only [jsonStep, hp]
      exact ⟨hfc, hlen, hcall⟩
    · have hpid : pid = 0 := by
        rcases List.getElem?_eq_some_iff.mp hp with ⟨hlt, _⟩
        omega
      subst hpid
      cases ph with
      | awaitingJson =>
        have hnodone : ∀ c ∈ s.callers, CallerPre c := by
          intro c hcm
          rcases hcall c hcm with h | ⟨r, hr, hres⟩
          · exact h
          · rw [hp] at hres
            simp at hres
        cases res with
        | ok data =>
          simp only [jsonStep, hp]
          exact ⟨hfc, by simpa using hlen, fun c hcm => Or.inl (hnodone c hcm)⟩
        | error cause =>
          simp only [jsonStep, hp]
          exact ⟨hfc, by simpa using hlen, fun c hcm => Or.inl (hnodone c hcm)⟩
      | awaitingFetch =>
        simp only [jsonStep, hp]
        exact ⟨hfc, hlen, hcall⟩
      | resolved r =>
        simp only [jsonStep, hp]
        exact ⟨hfc, hlen, hcall⟩
  | settle i =>
    have hstep : step s (.settle i) = settleStep s i := rfl
    rw [hstep]
    rcases hc : s.callers[i]? with _ | c
    · simp only [settleStep, hc]
      exact ⟨hfc, hlen, hcall⟩
    · have hmem : c ∈ s.callers := List.getElem?_mem hc
      cases c with
      | notStarted =>
        simp only [settleStep, hc]
        exact ⟨hfc, hlen, hcall⟩
      | done r =>
        simp only [settleStep, hc]
        exact ⟨hfc, hlen, hcall⟩
      | joined pid =>
        have hpid : pid = 0 := by
          rcases hcall _ hmem with h | ⟨r, hr, _⟩
          · rcases h with h | h | h <;> cases h
            rfl
          · cases hr
        subst hpid
        rcases hp : s.promises[0]? with _ | ph
        · simp only [settleStep, hc, hp]
          exact ⟨hfc, hlen, hcall⟩
        · cases ph with
          | awaitingFetch =>
            simp only [settleStep, hc, hp]
            exact ⟨hfc, hlen, hcall⟩
          | awaitingJson =>
            simp only [settleStep, hc, hp]
            exact ⟨hfc, hlen, hcall⟩
          | resolved r =>
            simp only [settleStep, hc, hp]
            refine ⟨hfc, hlen, ?_⟩
            intro c hcm
            rcases List.mem_or_eq_of_mem_set hcm with hm | he
            · exact hcall c hm
            · exact Or.inr ⟨r, he, hp⟩
      | owner pid =>
        have hpid : pid = 0 := by
          rcases hcall _ hmem with h | ⟨r, hr, _⟩
          · rcases h with h | h | h <;> cases h
            rfl
          · cases hr
        subst hpid
        rcases hp : s.promises[0]? with _ | ph
        · simp only [settleStep, hc, hp]
          exact ⟨hfc, hlen, hcall⟩
        · cases ph with
          | awaitingFetch =>
            simp only [settleStep, hc, hp]
            exact ⟨hfc, hlen, hcall⟩
          | awaitingJson =>
            simp only [settleStep, hc, hp]
            exact ⟨hfc, hlen, hcall⟩
          | resolved r =>
            simp only [settleStep, hc, hp]
            refine ⟨hfc, hlen, ?_⟩
            intro c hcm
            rcases List.mem_or_eq_of_mem_set hcm with hm | he
            · exact hcall c hm
            · exact Or.inr ⟨r, he, hp⟩

lemma inv2_run (q : List Action) :
    ∀ s : Sys, Inv2 s → (∀ a ∈ q, phase2Ok a = true) → Inv2 (run s q) := by
  induction q with
  | nil => exact fun s hs _ => hs
  | cons a q ih =>
    intro s hs hq
    have hr : run s (a :: q) = run (step s a) q := by simp [run]
    rw [hr]
    exact ih (step s a) (inv2_step s a hs (hq a (List.mem_cons_self a q)))
      (fun b hb => hq b (List.mem_cons_of_mem a hb))

/-- Caller `i` has been engaged: its slot (if it exists) is no longer
`notStarted`. -/
def Engaged (s : Sys) (i : Nat) : Prop :=
  ∀ st, s.callers[i]? = some st → st ≠ CallerSt.notStarted

lemma engagedL_of_set (cs : List CallerSt) (i : Nat) (v : CallerSt)
    (hv : v ≠ CallerSt.notStarted) :
    ∀ st, (cs.set i v)[i]? = some st → st ≠ CallerSt.notStarted := by
  intro st hst
  by_cases hk : i < cs.length
  · rw [List.getElem?_set_self hk] at hst
    cases hst
    exact hv
  · rw [List.set_eq_of_length_le (Nat.le_of_not_lt hk),
      List.getElem?_eq_none_iff.mpr (Nat.le_of_not_lt hk)] at hst
    cases hst

lemma engaged_set (cs : List CallerSt) (i k : Nat) (v : CallerSt)
    (hv : v ≠ CallerSt.notStarted)
    (h : ∀ st, cs[i]? = some st → st ≠ CallerSt.notStarted) :
    ∀ st, (cs.set k v)[i]? = some st → st ≠ CallerSt.notStarted := by
  intro st hst
  rcases eq_or_ne k i with rfl | hne
  · exact engagedL_of_set cs k v hv st hst
  · rw [List.getElem?_set_ne hne] at hst
    exact h st hst

lemma invokeStep_callers (s : Sys) (k : Nat) (now : Int) :
    (invokeStep s k now).callers = s.callers ∨
    ∃ v, v ≠ CallerSt.notStarted ∧
      (invokeStep s k now).callers = s.callers.set k v := by
  unfold invokeStep startOrJoin
  split
  · split
    · split
      · refine Or.inr ⟨_, ?_, rfl⟩
        simp
      · split
        · refine Or.inr ⟨_, ?_, rfl⟩
          simp
        · refine Or.inr ⟨_, ?_, rfl⟩
          simp
    · split
      · refine Or.inr ⟨_, ?_, rfl⟩
        simp
      · refine Or.inr ⟨_, ?_, rfl⟩
        simp
  · exact Or.inl rfl

lemma settleStep_callers (s : Sys) (i : Nat) :
    (settleStep s i).callers = s.callers ∨
    ∃ v, v ≠ CallerSt.notStarted ∧ (settleStep s i).callers = s.callers.set i v := by
  unfold settleStep
  split
  · split
    · refine Or.inr ⟨_, ?_, rfl⟩
      simp
    · exact Or.inl rfl
  · split
    · refine Or.inr ⟨_, ?_, rfl⟩
      simp
    · exact Or.inl rfl
  · exact Or.inl rfl

lemma step_callers_shape (s : Sys) (a : Action) :
    (step s a).callers = s.callers ∨
    ∃ k v, v ≠ CallerSt.notStarted ∧ (step s a).callers = s.callers.set k v := by
  cases a with
  | invoke k now =>
    rcases invokeStep_callers s k now with h | ⟨v, hv, h⟩
    · exact Or.inl h
    · exact Or.inr ⟨k, v, hv, h⟩
  | fetchResolved pid o =>
    refine Or.inl ?_
    show (fetchStep s pid o).callers = s.callers
    unfold fetchStep
    split
    · split <;> rfl
    · rfl
  | jsonResolved pid res now =>
    refine Or.inl ?_
    show (jsonStep s pid res now).callers = s.callers
    unfold jsonStep
    split
    · split <;> rfl
    · rfl
  | settle i =>
    rcases settleStep_callers s i with h | ⟨v, hv, h⟩
    · exact Or.inl h
    · exact Or.inr ⟨i, v, hv, h⟩

lemma engaged_step (s : Sys) (a : Action) (i : Nat) (h : Engaged s i) :
    Engaged (step s a) i := by
  rcases step_callers_shape s a with hcs | ⟨k, v, hv, hcs⟩
  · intro st hst
    rw [hcs] at hst
    exact h st hst
  · intro st hst
    rw [hcs] at hst
    exact engaged_set s.callers i k v hv h st hst

/-- After its own invocation a caller is never back in `notStarted`. -/
lemma engaged_invoke (s : Sys) (i : Nat) (now : Int) :
    Engaged (step s (.invoke i now)) i := by
  have hstep : step s (.invoke i now) = invokeStep s i now := rfl
  rw [hstep]
  rcases hc : s.callers[i]? with _ | c
  · intro st hst
    have hno : invokeStep s i now = s := by simp only [invokeStep, hc]
    rw [hno, hc] at hst
    cases hst
  · cases c with
    | notStarted =>
      simp only [invokeStep, hc, startOrJoin]
      rcases h1 : s.token.accessToken with _ | tok <;>
        rcases h2 : s.token.expiresAt with _ | e <;>
          simp only []
      case none.none | none.some | some.none =>
        first
        | (rcases h3 : s.tokenPromise with _ | pid <;> simp only [] <;>
            exact engagedL_of_set s.callers i _ (by simp))
      case some.some =>
        split
        · exact engagedL_of_set s.callers i _ (by simp)
        · rcases h3 : s.tokenPromise with _ | pid <;> simp only [] <;>
            exact engagedL_of_set s.callers i _ (by simp)
    | joined pid =>
      have hno : invokeStep s i now = s := by simp only [invokeStep, hc]
      rw [hno]
      intro st hst
      rw [hc] at hst
      cases hst
      simp
    | owner pid =>
      have hno : invokeStep s i now = s := by simp only [invokeStep, hc]
      rw [hno]
      intro st hst
      rw [hc] at hst
      cases hst
      simp
    | done r =>
      have hno : invokeStep s i now = s := by simp only [invokeStep, hc]
      rw [hno]
      intro st hst
      rw [hc] at hst
      cases hst
      simp

lemma engaged_run (as : List Action) :
    ∀ (s : Sys) (i : Nat), Engaged s i → Engaged (run s as) i := by
  induction as with
  | nil => exact fun s i h => h
  | cons a as ih =>
    intro s i h
    have hr : run s (a :: as) = run (step s a) as := by simp [run]
    rw [hr]
    exact ih (step s a) i (engaged_step s a i h)

/-- **C1.** Single-flight refresh: for any schedule in which the callers
arrive (phase `p`: invocations at times with no valid token held, plus
wake-ups) before the refresh produces any result (phase `q`: resolutions
and wake-ups, no further invocations), with at least one real caller
invoking, exactly one refresh network call is issued; every completed
caller holds the same result; every caller that invoked is either still
awaiting the unique promise 0 (as owner or joiner) or completed with that
promise's resolved value; and at most one refresh promise — the one
`tokenPromise` handle — exists at every point of the schedule. -/
theorem single_flight_refresh (N : Nat) (t0 : TokenState) (p q : List Action)
    (i0 : Nat) (now0 : Int)
    (hp : ∀ a ∈ p, phase1Ok t0 a = true)
    (hq : ∀ a ∈ q, phase2Ok a = true)
    (hmem : Action.invoke i0 now0 ∈ p) (hi0 : i0 < N) :
    (run (Sys.init N t0) (p ++ q)).fetchCount = 1 ∧
    (∀ (i j : Nat) (ri rj : Except String String),
      (run (Sys.init N t0) (p ++ q)).callers[i]? = some (CallerSt.done ri) →
      (run (Sys.init N t0) (p ++ q)).callers[j]? = some (CallerSt.done rj) →
        ri = rj) ∧
    (∀ i now1, Action.invoke i now1 ∈ p →
      ∀ st, (run (Sys.init N t0) (p ++ q)).callers[i]? = some st →
        st = CallerSt.owner 0 ∨ st = CallerSt.joined 0 ∨
        ∃ r, st = CallerSt.done r ∧
          (run (Sys.init N t0) (p ++ q)).promises[0]? = some (.resolved r)) ∧
    (∀ p', p' <+: p → (run (Sys.init N t0) p').promises.length ≤ 1) ∧
    (∀ q', q' <+: q → (run (Sys.init N t0) (p ++ q')).promises.length = 1) := by
  have hInit : Inv1 N t0 (Sys.init N t0) := by
    refine ⟨rfl, by simp [Sys.init], rfl, Or.inl ⟨rfl, rfl, ?_⟩⟩
    intro c hc
    exact List.eq_of_mem_replicate hc
  have hS1 : Inv1 N t0 (run (Sys.init N t0) p) ∧
      (run (Sys.init N t0) p).promises = [RefreshPhase.awaitingFetch] := by
    obtain ⟨u, v, rfl⟩ := List.append_of_mem hmem
    have hpu : ∀ a ∈ u, phase1Ok t0 a = true :=
      fun a ha => hp a (List.mem_append_left _ ha)
    have hpv : ∀ a ∈ v, phase1Ok t0 a = true :=
      fun a ha => hp a (List.mem_append_right _ (List.mem_cons_of_mem _ ha))
    have hv0 : hasValidToken t0 now0 = false := by
      have := hp _ (List.mem_append_right u (List.mem_cons_self _ v))
      simpa [phase1Ok] using this
    have hu := inv1_run N t0 u (Sys.init N t0) hInit hpu
    have hstart := invoke_starts N t0 (run (Sys.init N t0) u) i0 now0 hu.1 hv0 hi0
    have hsa := inv1_invoke N t0 (run (Sys.init N t0) u) i0 now0 hu.1 hv0
    have hrun := inv1_run N t0 v _ hsa.1 hpv
    have hsplit : run (Sys.init N t0) (u ++ Action.invoke i0 now0 :: v) =
        run (step (run (Sys.init N t0) u) (Action.invoke i0 now0)) v := by
      simp [run, List.foldl_append]
    rw [hsplit]
    exact ⟨hrun.1, hrun.2 hstart⟩
  have hInv2S1 : Inv2 (run (Sys.init N t0) p) := by
    obtain ⟨⟨htok, hlen, hfc, hcase⟩, hprom⟩ := hS1
    refine ⟨by rw [hfc, hprom]; rfl, by rw [hprom]; rfl, ?_⟩
    rcases hcase with ⟨hp', _, _⟩ | ⟨_, _, hcall⟩
    · rw [hprom] at hp'
      cases hp'
    · exact fun c hc => Or.inl (hcall c hc)
  have happ : run (Sys.init N t0) (p ++ q) = run (run (Sys.init N t0) p) q := by
    simp [run, List.foldl_append]
  have hInv2F : Inv2 (run (Sys.init N t0) (p ++ q)) := by
    rw [happ]
    exact inv2_run q _ hInv2S1 hq
  obtain ⟨hfcF, hlenF, hcallF⟩ := hInv2F
  refine ⟨hfcF, ?_, ?_, ?_, ?_⟩
  · intro i j ri rj hi hj
    rcases hcallF _ (List.getElem?_mem hi) with h | ⟨r, hr, hres⟩
    · rcases h with h | h | h <;> cases h
    · cases hr
      rcases hcallF _ (List.getElem?_mem hj) with h' | ⟨r', hr', hres'⟩
      · rcases h' with h' | h' | h' <;> cases h'
      · cases hr'
        rw [hres] at hres'
        simpa using hres'
  · intro i now1 hmem1 st hst
    have hengP : Engaged (run (Sys.init N t0) p) i := by
      obtain ⟨u', v', hw⟩ := List.append_of_mem hmem1
      rw [hw]
      have hsplit : run (Sys.init N t0) (u' ++ Action.invoke i now1 :: v') =
          run (step (run (Sys.init N t0) u') (Action.invoke i now1)) v' := by
        simp [run, List.foldl_append]
      rw [hsplit]
      exact engaged_run v' _ i (engaged_invoke _ i now1)
    have hengF : Engaged (run (Sys.init N t0) (p ++ q)) i := by
      rw [happ]
      exact engaged_run q _ i hengP
    have hne := hengF st hst
    rcases hcallF _ (List.getElem?_mem hst) with h | ⟨r, hr, hres⟩
    · rcases h with h | h | h
      · exact absurd h hne
      · exact Or.inl h
      · exact Or.inr (Or.inl h)
    · exact Or.inr (Or.inr ⟨r, hr, hres⟩)
  · intro p' hpre
    obtain ⟨rest, hrest⟩ := hpre
    have hp' : ∀ a ∈ p', phase1Ok t0 a = true := by
      intro a ha
      refine hp a ?_
      rw [← hrest]
      exact List.mem_append_left rest ha
    have h1 := (inv1_run N t0 p' (Sys.init N t0) hInit hp').1
    rcases h1.2.2.2 with ⟨hpp, _, _⟩ | ⟨hpp, _, _⟩ <;> rw [hpp] <;> simp
  · intro q' hqpre
    obtain ⟨rest, hrest⟩ := hqpre
    have hq' : ∀ a ∈ q', phase2Ok a = true := by
      intro a ha
      refine hq a ?_
      rw [← hrest]
      exact List.mem_append_left rest ha
    have happ' : run (Sys.init N t0) (p ++ q') = run (run (Sys.init N t0) p) q' := by
      simp [run, List.foldl_append]
    rw [happ']
    exact (inv2_run q' _ hInv2S1 hq').2.1

/-- Witness for C1: three concurrent callers, one fetch, and all three end
with the same token. -/
theorem single_flight_refresh_witness :
    (run (Sys.init 3 ⟨none, none⟩)
      ([.invoke 0 5, .invoke 1 5, .invoke 2 5] ++
       [.fetchResolved 0 (.response true 200 "OK"),
        .jsonResolved 0 (.ok ⟨"tok", 3600, "bearer"⟩) 6,
        .settle 0, .settle 1, .settle 2])).fetchCount = 1 ∧
    (run (Sys.init 3 ⟨none, none⟩)
      ([.invoke 0 5, .invoke 1 5, .invoke 2 5] ++
       [.fetchResolved 0 (.response true 200 "OK"),
        .jsonResolved 0 (.ok ⟨"tok", 3600, "bearer"⟩) 6,
        .settle 0, .settle 1, .settle 2])).callers =
      [.done (.ok "tok"), .done (.ok "tok"), .done (.ok "tok")] ∧
    (∀ p', p' <+: ([.invoke 0 5, .invoke 1 5, .invoke 2 5] : List Action) →
      (run (Sys.init 3 ⟨none, none⟩) p').promises.length ≤ 1) := by
  have h := single_flight_refresh 3 ⟨none, none⟩
    [.invoke 0 5, .invoke 1 5, .invoke 2 5]
    [.fetchResolved 0 (.response true 200 "OK"),
     .jsonResolved 0 (.ok ⟨"tok", 3600, "bearer"⟩) 6,
     .settle 0, .settle 1, .settle 2]
    0 5 (by decide) (by decide) (by decide) (by decide)
  exact ⟨h.1, by rfl, h.2.2.2.1⟩

end IGDB
